import Mathlib

set_option maxRecDepth 8000

/-!
Shallow embedding of `django_pgschemas/management/commands/_executors.py`:
tenant resolution, the output-correlating `StyleFunc`, `run_on_schema`,
and the `sequential` and `parallel` executors, together with theorems
about the claims on this code.
-/

/-- An identifier standing for an underlying raw output stream object
(such as `sys.stdout`).  Only identity matters for the claims. -/
abbrev StreamId := Nat

/-- A Python value appearing in keyword-argument dictionaries: a string,
a raw stream object, or `None`. -/
inductive PyValue where
  | str (s : String)
  | stream (sid : StreamId)
  | pynone
deriving DecidableEq, Repr

/-- A Python `dict` of keyword arguments, as an association list.
Only the key-to-value mapping is relevant; `dictGet` is the observer. -/
abbrev Kwargs := List (String × PyValue)

/-- `d[k]` lookup on a keyword dictionary. -/
def dictGet : Kwargs → String → Option PyValue
  | [], _ => none
  | p :: d, k => if p.fst = k then some p.snd else dictGet d k

/-- The dictionary with key `k` removed, as done by `dict.pop(k, default)`. -/
def dictRemove : Kwargs → String → Kwargs
  | [], _ => []
  | p :: d, k => if p.fst = k then dictRemove d k else p :: dictRemove d k

/-- `d.update(\x7bk: v\x7d)`: the mapping afterwards sends `k` to `v` and every
other key to its old value (the embedding normalises the entry order,
which no observer of the executor code depends on). -/
def dictSet (d : Kwargs) (k : String) (v : PyValue) : Kwargs :=
  dictRemove d k ++ [(k, v)]

/-- Modelled from the spec: the `DomainInfo` routing-metadata record of the
repository's routing module (not included in the sources): an optional
primary domain. -/
structure DomainInfo where
  domain : Option String
deriving DecidableEq, Repr

/-- One entry of the static tenant configuration `settings.TENANTS`:
its `DOMAINS` list (`entry.get("DOMAINS", [])`). -/
structure TenantEntry where
  domains : List String
deriving DecidableEq, Repr

/-- A row of the dynamic tenant store (an instance of the tenant model):
its `schema_name` plus a row identity so distinct rows are distinguishable. -/
structure TenantRecord where
  schema_name : String
  rowId : Nat
deriving DecidableEq, Repr

/-- The configuration surface `run_on_schema` consults: `settings.TENANTS`,
and, modelled from the spec because `django_pgschemas.utils` is not among
the sources, `get_clone_reference()` (an optional reserved name) and
`get_tenant_model()` (`none` when no dynamic tenant store is configured,
otherwise the store's rows). -/
structure Settings where
  tenants : List (String × TenantEntry)
  cloneReference : Option String
  tenantModel : Option (List TenantRecord)
deriving DecidableEq, Repr

/-- `schema_name in settings.TENANTS` / `settings.TENANTS[schema_name]`. -/
def lookupTenant (s : Settings) (schema_name : String) : Option TenantEntry :=
  (s.tenants.find? (fun p => p.fst == schema_name)).map Prod.snd

/-- `TenantModel.objects.get(schema_name=...)` without the raising part:
the first row of the store whose `schema_name` matches. -/
def findRecord (recs : List TenantRecord) (schema_name : String) : Option TenantRecord :=
  recs.find? (fun r => r.schema_name == schema_name)

/-- The errors the per-tenant task can raise: `CommandError` with its
message, the tenant model's `DoesNotExist` (raised by `objects.get` on a
miss), and a failure raised by the invoked operation itself. -/
inductive ExecError where
  | commandError (msg : String)
  | doesNotExist
  | operationFailure (msg : String)
deriving DecidableEq, Repr

/-- The schema object produced by the resolution chain of `run_on_schema`:
the static branch builds `Schema.create(schema_name, routing=DomainInfo(...))`,
the clone-reference branch builds `Schema.create(schema_name)` with no
routing, and the dynamic branch returns the store's row. -/
inductive ResolvedSchema where
  | static (schema_name : String) (routing : DomainInfo)
  | cloneRef (schema_name : String)
  | dynamic (record : TenantRecord)
deriving DecidableEq, Repr

/-- The resolution chain of `run_on_schema` (source lines 74-85): static
configuration first, then the clone reference, then the dynamic store;
`objects.get` on a store miss raises `DoesNotExist`, and only a missing
store raises `CommandError`. -/
def resolveSchema (s : Settings) (schema_name : String) :
    Except ExecError ResolvedSchema :=
  match lookupTenant s schema_name with
  | some entry =>
      .ok (.static schema_name ⟨entry.domains.head?⟩)
  | none =>
      if s.cloneReference = some schema_name then
        .ok (.cloneRef schema_name)
      else
        match s.tenantModel with
        | some recs =>
            match findRecord recs schema_name with
            | some r => .ok (.dynamic r)
            | none => .error .doesNotExist
        | none =>
            .error (.commandError ("Unable to find schema " ++ schema_name ++ "!"))

/-- The mutable state of one `StyleFunc` instance: the last message
written through it, `None` initially. -/
structure StyleFunc where
  last_message : Option String
deriving DecidableEq, Repr

/-- The `"[%s:%s] "` tag `StyleFunc.__call__` prepends, with the executor
codename and the schema name rendered through the command's NOTICE style. -/
def msgTag (style : String → String) (executor_codename schema_name : String) : String :=
  "[" ++ style executor_codename ++ ":" ++ style schema_name ++ "] "

/-- `StyleFunc.__call__(message)`: returns the updated state and the
effective output — tagged when no message was written before or the
previous message ended with a newline, unchanged otherwise. -/
def StyleFunc.call (style : String → String) (executor_codename schema_name : String)
    (st : StyleFunc) (message : String) : StyleFunc × String :=
  let last := st.last_message
  let st' : StyleFunc := ⟨some message⟩
  match last with
  | none => (st', msgTag style executor_codename schema_name ++ message)
  | some m =>
      if m.endsWith "\n" then
        (st', msgTag style executor_codename schema_name ++ message)
      else
        (st', message)

/-- An output wrapper (`OutputWrapper`) around a destination stream, with
the `style_func` state attached to it and the record of effective outputs
written through it. -/
structure OutputWrapper where
  dest : StreamId
  style_func : StyleFunc
  written : List String
deriving DecidableEq, Repr

/-- `OutputWrapper(raw_stream)`: a fresh wrapper around a raw stream. -/
def wrapStream (sid : StreamId) : OutputWrapper :=
  ⟨sid, ⟨none⟩, []⟩

/-- A command class (`type(command)`): instantiating it yields a pristine
instance whose streams are the class defaults. -/
structure CommandClass where
  defaultStdout : StreamId
  defaultStderr : StreamId
deriving DecidableEq, Repr

/-- A command instance (`BaseCommand` object): its class, its current
stdout and stderr wrappers, and any attributes the caller pre-bound on
this particular instance. -/
structure CommandInstance where
  cls : CommandClass
  stdout : OutputWrapper
  stderr : OutputWrapper
  custom : List (String × PyValue)
deriving DecidableEq, Repr

/-- `command()`: constructing a fresh instance from a class — default
streams, no caller customisations. -/
def instantiate (c : CommandClass) : CommandInstance :=
  ⟨c, wrapStream c.defaultStdout, wrapStream c.defaultStderr, []⟩

/-- The `command` argument of `run_on_schema`: either a `BaseCommand`
instance (sequential mode) or a command class (parallel mode). -/
inductive CommandArg where
  | inst (i : CommandInstance)
  | cls (c : CommandClass)
deriving DecidableEq, Repr

/-- `type(command)` as used by the parallel executor: the class of an
instance (a class argument is already a type and is forwarded as such). -/
def pyTypeOf : CommandArg → CommandArg
  | .inst i => .cls i.cls
  | .cls c => .cls c

/-- The externally visible effects of one `run_on_schema` call, in
program order: `connections.close_all()`, the resolution attempt, the
`activate(schema)` call, exactly one of the three invocation shapes
(with the arguments it forwards), `transaction.commit()` and
`connection.close()`. -/
inductive Event where
  | closeAll
  | resolveEv (schema_name : String)
  | activateEv (schema : ResolvedSchema)
  | callCommandInvoke (args : List String) (kwargs : Kwargs)
  | runFromArgvInvoke (argv : List String)
  | methodInvoke (function_name : String) (args : List String) (kwargs : Kwargs)
  | commit
  | closeConn
deriving DecidableEq, Repr

/-- The three-way dispatch of `run_on_schema` (source lines 92-97): the
`call_command` shape and the direct-method shape forward the keyword
arguments, the `run_from_argv` shape forwards only the token list. -/
def invokeShape (function_name : String) (argv : List String) (kw : Kwargs) : Event :=
  if function_name = "special:call_command" then
    .callCommandInvoke argv kw
  else if function_name = "special:run_from_argv" then
    .runFromArgvInvoke argv
  else
    .methodInvoke function_name argv kw

/-- Whether an event is one of the three operation-invocation shapes. -/
def Event.isInvoke : Event → Bool
  | .callCommandInvoke _ _ => true
  | .runFromArgvInvoke _ => true
  | .methodInvoke _ _ _ => true
  | _ => false

/-- The named arguments an invocation event forwards to the operation:
the argv shape forwards none at all. -/
def Event.namedArgs : Event → Option Kwargs
  | .callCommandInvoke _ kw => some kw
  | .methodInvoke _ _ kw => some kw
  | _ => none

/-- What one `run_on_schema` call produced: its effect trace, its result
(the schema name, or the raised error), the keyword dictionary after the
call (`none` when the caller passed no dictionary), the configured
command instance the call operated on, and the caller-visible `command`
argument afterwards (instance mutations persist, a class is unchanged). -/
structure RunOutcome where
  events : List Event
  result : Except ExecError String
  kwargsFinal : Option Kwargs
  commandUsed : CommandInstance
  commandAfter : CommandArg

/-- `run_on_schema`: instantiates the command when given a class, pops
`stdout`/`stderr` out of the keyword dictionary and wraps them, attaches
a fresh `StyleFunc` to each stream, closes all connections when
`fork_db`, resolves and activates the schema, injects `schema_name` into
the keyword arguments when requested, dispatches exactly one of the
three invocation shapes (the operation's own failure, given by
`opOracle`, propagates), and when `fork_db` commits and closes the
connection before returning the schema name. -/
def run_on_schema (settings : Settings) (opOracle : String → Option String)
    (schema_name executor_codename : String) (command : CommandArg)
    (function_name : String) (args : Option (List String)) (kwargs : Option Kwargs)
    (pass_schema_in_kwargs : Bool) (fork_db : Bool) : RunOutcome :=
  let argv := args.getD []
  let kw0 := kwargs.getD []
  let cmd0 := match command with
    | .inst i => i
    | .cls c => instantiate c
  let stdoutW := match dictGet kw0 "stdout" with
    | some (PyValue.stream sid) => wrapStream sid
    | _ => cmd0.stdout
  let kw1 := dictRemove kw0 "stdout"
  let stderrW := match dictGet kw1 "stderr" with
    | some (PyValue.stream sid) => wrapStream sid
    | _ => cmd0.stderr
  let kw2 := dictRemove kw1 "stderr"
  let cmd1 : CommandInstance :=
    { cmd0 with
        stdout := { stdoutW with style_func := ⟨none⟩ }
        stderr := { stderrW with style_func := ⟨none⟩ } }
  let commandAfter := match command with
    | .inst _ => CommandArg.inst cmd1
    | .cls c => CommandArg.cls c
  let pre := (if fork_db then [Event.closeAll] else []) ++ [Event.resolveEv schema_name]
  match resolveSchema settings schema_name with
  | .error e =>
      { events := pre
        result := .error e
        kwargsFinal := kwargs.map fun _ => kw2
        commandUsed := cmd1
        commandAfter := commandAfter }
  | .ok schema =>
      let kw3 := if pass_schema_in_kwargs
        then dictSet kw2 "schema_name" (PyValue.str schema_name)
        else kw2
      let invokeEv : Event := invokeShape function_name argv kw3
      let evs := pre ++ [Event.activateEv schema, invokeEv]
      match opOracle schema_name with
      | some msg =>
          { events := evs
            result := .error (.operationFailure msg)
            kwargsFinal := kwargs.map fun _ => kw3
            commandUsed := cmd1
            commandAfter := commandAfter }
      | none =>
          { events := evs ++ (if fork_db then [Event.commit, Event.closeConn] else [])
            result := .ok schema_name
            kwargsFinal := kwargs.map fun _ => kw3
            commandUsed := cmd1
            commandAfter := commandAfter }

/-- The result of a per-tenant task, as a function of the configuration
and the operation oracle only (the streams and keyword arguments cannot
change it). -/
def taskResult (settings : Settings) (opOracle : String → Option String)
    (schema_name : String) : Except ExecError String :=
  match resolveSchema settings schema_name with
  | .error e => .error e
  | .ok _ =>
      match opOracle schema_name with
      | some msg => .error (.operationFailure msg)
      | none => .ok schema_name

/-- The loop body state of the `sequential` executor: the identifiers
whose task was started so far in order, the threaded keyword dictionary
(the caller's dictionary object is shared by every iteration), the
threaded command argument, and the first raised error, if any. -/
structure SeqState where
  executed : List String
  kwargsFinal : Option Kwargs
  commandFinal : CommandArg
  raised : Option ExecError

/-- The `for schema in schemas: runner(schema)` loop of `sequential`:
each iteration calls `run_on_schema` with `fork_db=False`; a raised
error stops the loop and propagates. -/
def sequentialGo (settings : Settings) (opOracle : String → Option String)
    (function_name : String) (args : Option (List String))
    (pass_schema_in_kwargs : Bool) :
    List String → Option Kwargs → CommandArg → List String → SeqState
  | [], kw, cmd, acc => ⟨acc.reverse, kw, cmd, none⟩
  | s :: rest, kw, cmd, acc =>
      let out := run_on_schema settings opOracle s "sequential" cmd function_name
        args kw pass_schema_in_kwargs false
      match out.result with
      | .error e => ⟨acc.reverse ++ [s], out.kwargsFinal, out.commandAfter, some e⟩
      | .ok _ => sequentialGo settings opOracle function_name args pass_schema_in_kwargs
          rest out.kwargsFinal out.commandAfter (s :: acc)

/-- What a `sequential` run produced: the started identifiers in order,
the returned value (`schemas` itself on success) or the propagated
error, and the final keyword-dictionary and command states. -/
structure SeqOutcome where
  executed : List String
  result : Except ExecError (List String)
  kwargsFinal : Option Kwargs
  commandFinal : CommandArg

/-- The `sequential` executor: runs the tasks one at a time in list
order with `fork_db=False` and returns the input identifier list when
every task succeeded. -/
def sequential (settings : Settings) (opOracle : String → Option String)
    (schemas : List String) (command : CommandArg) (function_name : String)
    (args : Option (List String)) (kwargs : Option Kwargs)
    (pass_schema_in_kwargs : Bool) : SeqOutcome :=
  let st := sequentialGo settings opOracle function_name args pass_schema_in_kwargs
    schemas kwargs command []
  { executed := st.executed
    result := match st.raised with
      | some e => .error e
      | none => .ok schemas
    kwargsFinal := st.kwargsFinal
    commandFinal := st.commandFinal }

/-- Collecting pool results by input position: position `start + j` of the
output comes from the completion token recorded for that position,
whatever order the completions arrived in. -/
def collectFrom (results : List (Nat × α)) : Nat → Nat → Option (List α)
  | _, 0 => some []
  | start, Nat.succ k =>
      match (results.find? (fun p => p.fst == start)).map Prod.snd,
          collectFrom results (start + 1) k with
      | some b, some bs => some (b :: bs)
      | _, _ => none

/-- `pool.map(f, xs)` under an arbitrary completion schedule `sched` (the
order in which the pool's workers finish the task indices): each finished
task deposits its result at its input index, and the pool returns the
results read back in input order.  An invalid schedule yields `none`. -/
def poolMapSched (f : α → β) (xs : List α) (sched : List Nat) : Option (List β) :=
  collectFrom (sched.filterMap fun i => (xs[i]?).map fun x => (i, f x)) 0 xs.length

/-- `pool.map` raising semantics at the collection boundary: the first
failed task in input order surfaces; otherwise all completion tokens. -/
def gatherResults : List (Except ExecError String) → Except ExecError (List String)
  | [] => .ok []
  | .error e :: _ => .error e
  | .ok s :: rest => (gatherResults rest).map fun l => s :: l

/-- The `parallel` executor: every worker task receives `type(command)`
and runs `run_on_schema` with `fork_db=True` on its own copy of the
arguments; results are gathered in input order under completion schedule
`sched`. -/
def parallel (settings : Settings) (opOracle : String → Option String)
    (schemas : List String) (command : CommandArg) (function_name : String)
    (args : Option (List String)) (kwargs : Option Kwargs)
    (pass_schema_in_kwargs : Bool) (sched : List Nat) :
    Option (Except ExecError (List String)) :=
  let runner := fun s => run_on_schema settings opOracle s "parallel"
    (pyTypeOf command) function_name args kwargs pass_schema_in_kwargs true
  (poolMapSched (fun s => (runner s).result) schemas sched).map gatherResults

/-- A write of `message` through the command's stdout wrapper: the
effective output is produced by that wrapper's own `StyleFunc`. -/
def writeStdout (style : String → String) (executor_codename schema_name : String)
    (cmd : CommandInstance) (message : String) : CommandInstance :=
  let r := StyleFunc.call style executor_codename schema_name cmd.stdout.style_func message
  { cmd with stdout := { cmd.stdout with style_func := r.1, written := cmd.stdout.written ++ [r.2] } }

/-- A write of `message` through the command's stderr wrapper: the
effective output is produced by that wrapper's own `StyleFunc`. -/
def writeStderr (style : String → String) (executor_codename schema_name : String)
    (cmd : CommandInstance) (message : String) : CommandInstance :=
  let r := StyleFunc.call style executor_codename schema_name cmd.stderr.style_func message
  { cmd with stderr := { cmd.stderr with style_func := r.1, written := cmd.stderr.written ++ [r.2] } }

theorem dictGet_remove_self (d : Kwargs) (k : String) :
    dictGet (dictRemove d k) k = none := by
  induction d with
  | nil => rfl
  | cons p d ih =>
      by_cases h : p.fst = k
      · simpa [dictRemove, h] using ih
      · simpa [dictRemove, dictGet, h] using ih

theorem dictGet_remove_ne (d : Kwargs) (k k' : String) (h : k' ≠ k) :
    dictGet (dictRemove d k) k' = dictGet d k' := by
  induction d with
  | nil => rfl
  | cons p d ih =>
      by_cases hp : p.fst = k
      · simpa [dictRemove, dictGet, hp, Ne.symm h] using ih
      · by_cases hq : p.fst = k'
        · simp [dictRemove, dictGet, hp, hq, h]
        · simpa [dictRemove, dictGet, hp, hq] using ih

theorem dictGet_append (d₁ d₂ : Kwargs) (k : String) :
    dictGet (d₁ ++ d₂) k = ((dictGet d₁ k).rec (dictGet d₂ k) fun v => some v) := by
  induction d₁ with
  | nil => simp [dictGet]
  | cons p d ih =>
      by_cases hp : p.fst = k
      · simp [dictGet, hp]
      · simpa [dictGet, hp] using ih

theorem dictGet_set_self (d : Kwargs) (k : String) (v : PyValue) :
    dictGet (dictSet d k v) k = some v := by
  rw [dictSet, dictGet_append, dictGet_remove_self]
  simp [dictGet]

theorem dictGet_set_ne (d : Kwargs) (k k' : String) (v : PyValue) (h : k' ≠ k) :
    dictGet (dictSet d k v) k' = dictGet d k' := by
  rw [dictSet, dictGet_append, ← dictGet_remove_ne d k k' h]
  rcases dictGet (dictRemove d k) k' with _ | w
  · simp [dictGet, Ne.symm h]
  · rfl

theorem run_result_eq_taskResult (settings : Settings)
    (opOracle : String → Option String) (schema_name executor_codename : String)
    (command : CommandArg) (function_name : String) (args : Option (List String))
    (kwargs : Option Kwargs) (pass_schema_in_kwargs fork_db : Bool) :
    (run_on_schema settings opOracle schema_name executor_codename command
      function_name args kwargs pass_schema_in_kwargs fork_db).result
      = taskResult settings opOracle schema_name := by
  unfold run_on_schema taskResult
  rcases resolveSchema settings schema_name with e | s
  · rfl
  · simp only
    rcases opOracle schema_name with _ | msg <;> rfl

theorem collectFrom_spec {α β : Type} (f : α → β) (results : List (Nat × β))
    (xs : List α) : ∀ (start : Nat),
    (∀ j, (hj : j < xs.length) →
      (results.find? (fun p => p.fst == start + j)).map Prod.snd
        = some (f (xs.get ⟨j, hj⟩))) →
    collectFrom results start xs.length = some (List.map f xs) := by
  induction xs with
  | nil =>
      intro start _
      rfl
  | cons x xs ih =>
      intro start h
      have h0 := h 0 (by simp)
      simp only [Nat.add_zero] at h0
      have hshift : ∀ j, (hj : j < xs.length) →
          (results.find? (fun p => p.fst == (start + 1) + j)).map Prod.snd
            = some (f (xs.get ⟨j, hj⟩)) := by
        intro j hj
        have hj' : j + 1 < (x :: xs).length := by
          simpa using Nat.succ_lt_succ hj
        have e : start + 1 + j = start + (j + 1) := by omega
        rw [e]
        exact h (j + 1) hj'
      have hrec := ih (start + 1) hshift
      show collectFrom results start (xs.length + 1) = _
      rw [collectFrom, h0, hrec]
      rfl

theorem poolMapSched_of_perm {α β : Type} (f : α → β) (xs : List α)
    (sched : List Nat) (h : sched.Perm (List.range xs.length)) :
    poolMapSched f xs sched = some (List.map f xs) := by
  unfold poolMapSched
  apply collectFrom_spec
  intro j hj
  simp only [Nat.zero_add]
  have hmem : j ∈ sched := h.mem_iff.mpr (List.mem_range.mpr hj)
  have hpair : (j, f (xs.get ⟨j, hj⟩))
      ∈ sched.filterMap (fun i => (xs[i]?).map fun x => (i, f x)) := by
    refine List.mem_filterMap.mpr ⟨j, hmem, ?_⟩
    rw [List.getElem?_eq_getElem hj]
    rfl
  have hsome : ((sched.filterMap (fun i => (xs[i]?).map fun x => (i, f x))).find?
      (fun p => p.fst == j)).isSome := by
    refine List.find?_isSome.mpr ⟨_, hpair, ?_⟩
    simp
  obtain ⟨a, ha⟩ := Option.isSome_iff_exists.mp hsome
  have haMem := List.mem_of_find?_eq_some ha
  have haP : a.fst = j := by
    have := List.find?_some ha
    simpa using this
  obtain ⟨i, _, hmap⟩ := List.mem_filterMap.mp haMem
  obtain ⟨x, hx, hax⟩ := Option.map_eq_some'.mp hmap
  have hij : i = j := by
    rw [← hax] at haP
    exact haP
  subst hij
  rw [List.getElem?_eq_getElem hj] at hx
  have hxv : x = xs.get ⟨i, hj⟩ := by
    injection hx with hx'
    exact hx'.symm
  rw [ha, ← hax, hxv]
  rfl

theorem gatherResults_map_ok (l : List String) :
    gatherResults (l.map fun s => Except.ok s) = .ok l := by
  induction l with
  | nil => rfl
  | cons s l ih =>
      show gatherResults (Except.ok s :: l.map fun s => Except.ok s) = _
      rw [gatherResults, ih]
      rfl

theorem invokeShape_isInvoke (fn : String) (argv : List String) (kw : Kwargs) :
    (invokeShape fn argv kw).isInvoke = true := by
  unfold invokeShape
  split_ifs <;> rfl

theorem invokeShape_ne_closeAll (fn : String) (argv : List String) (kw : Kwargs) :
    invokeShape fn argv kw ≠ Event.closeAll := by
  unfold invokeShape
  split_ifs <;> exact fun h => Event.noConfusion h

theorem invokeShape_ne_commit (fn : String) (argv : List String) (kw : Kwargs) :
    invokeShape fn argv kw ≠ Event.commit := by
  unfold invokeShape
  split_ifs <;> exact fun h => Event.noConfusion h

theorem invokeShape_ne_closeConn (fn : String) (argv : List String) (kw : Kwargs) :
    invokeShape fn argv kw ≠ Event.closeConn := by
  unfold invokeShape
  split_ifs <;> exact fun h => Event.noConfusion h

theorem msgTag_append_ne (style : String → String) (a b m : String) :
    m ≠ msgTag style a b ++ m := by
  intro h
  have hlen := congrArg String.length h
  unfold msgTag at hlen
  simp only [String.length_append] at hlen
  have h1 : ("[" : String).length = 1 := rfl
  omega

/-- Claim C1: an identifier that appears in the static tenant
configuration always resolves to the static context built from that
configuration entry — routing metadata is the first configured domain,
or empty when the entry has no domains — whatever the clone-reference
name is and whatever the dynamic store contains (the fixed order
static, clone-reference, dynamic is consulted and the first match wins
with no merging). -/
theorem resolve_static_precedence (settings : Settings) (schema_name : String)
    (entry : TenantEntry) (h : lookupTenant settings schema_name = some entry) :
    resolveSchema settings schema_name
      = .ok (.static schema_name ⟨entry.domains.head?⟩) := by
  unfold resolveSchema
  rw [h]

/-- Witness for C1: "t1" is both statically configured (with two
domains) and present in the dynamic store; resolution returns the
static context carrying the first configured domain. -/
theorem resolve_static_precedence_witness :
    lookupTenant ⟨[("t1", ⟨["d1.com", "d2.com"]⟩)], some "t0",
        some [⟨"t1", 0⟩]⟩ "t1" = some ⟨["d1.com", "d2.com"]⟩
    ∧ resolveSchema ⟨[("t1", ⟨["d1.com", "d2.com"]⟩)], some "t0",
        some [⟨"t1", 0⟩]⟩ "t1" = .ok (.static "t1" ⟨some "d1.com"⟩) :=
  ⟨rfl, resolve_static_precedence ⟨[("t1", ⟨["d1.com", "d2.com"]⟩)], some "t0",
    some [⟨"t1", 0⟩]⟩ "t1" ⟨["d1.com", "d2.com"]⟩ rfl⟩

/-- Claim C2 counterexample: "ghost" is absent from the static
configuration, is not the clone reference, and the dynamic store is
configured but has no matching row; resolution raises the store's
`DoesNotExist`, not the library's `CommandError` (the error kind carrying
the "Unable to find schema" message), so the claim that resolution fails
with the single UnknownTenant error kind is false. -/
theorem resolve_unknown_counterexample :
    resolveSchema ⟨[("t1", ⟨[]⟩)], some "ref", some [⟨"t1", 0⟩]⟩ "ghost"
      = .error .doesNotExist
    ∧ ∀ msg, resolveSchema ⟨[("t1", ⟨[]⟩)], some "ref", some [⟨"t1", 0⟩]⟩ "ghost"
        ≠ .error (.commandError msg) := by
  refine ⟨rfl, ?_⟩
  intro msg h
  have h' : (Except.error ExecError.doesNotExist
      : Except ExecError ResolvedSchema) = .error (.commandError msg) := h
  injection h' with h''
  exact ExecError.noConfusion h''

/-- Claim C2 amended: for an identifier absent from the static
configuration, different from the clone reference and not found by the
dynamic store, resolution fails — with `CommandError` ("Unable to find
schema ...") when no dynamic store is configured, and with the store's
own `DoesNotExist` error when the store is configured but the lookup
misses. -/
theorem resolve_unknown_amended (settings : Settings) (schema_name : String)
    (h1 : lookupTenant settings schema_name = none)
    (h2 : settings.cloneReference ≠ some schema_name) :
    (settings.tenantModel = none →
      resolveSchema settings schema_name
        = .error (.commandError ("Unable to find schema " ++ schema_name ++ "!")))
    ∧ (∀ recs, settings.tenantModel = some recs →
        findRecord recs schema_name = none →
        resolveSchema settings schema_name = .error .doesNotExist) := by
  constructor
  · intro hm
    unfold resolveSchema
    rw [h1, if_neg h2, hm]
  · intro recs hm hf
    have hstep : resolveSchema settings schema_name
        = match findRecord recs schema_name with
          | some r => .ok (.dynamic r)
          | none => .error .doesNotExist := by
      unfold resolveSchema
      rw [h1, if_neg h2, hm]
    rw [hf] at hstep
    exact hstep

/-- Witness for the amended C2: both failure branches at concrete
configurations. -/
theorem resolve_unknown_amended_witness :
    resolveSchema ⟨[("t1", ⟨[]⟩)], some "ref", none⟩ "ghost"
      = .error (.commandError "Unable to find schema ghost!")
    ∧ resolveSchema ⟨[("t1", ⟨[]⟩)], some "ref", some [⟨"t1", 0⟩]⟩ "ghost"
      = .error .doesNotExist :=
  ⟨(resolve_unknown_amended ⟨[("t1", ⟨[]⟩)], some "ref", none⟩ "ghost" rfl
      (by decide)).1 rfl,
   (resolve_unknown_amended ⟨[("t1", ⟨[]⟩)], some "ref", some [⟨"t1", 0⟩]⟩ "ghost" rfl
      (by decide)).2 [⟨"t1", 0⟩] rfl rfl⟩

/-- Claim C3: on every write, `StyleFunc` outputs the tagged message
exactly when no message was previously written or the previous message
ended with a newline; otherwise it outputs the message unchanged; and
the stored last message becomes the written message in both branches. -/
theorem styleFunc_correlator_law (style : String → String)
    (executor_codename schema_name : String) (st : StyleFunc) (message : String) :
    (StyleFunc.call style executor_codename schema_name st message).1
        = ⟨some message⟩
    ∧ ((StyleFunc.call style executor_codename schema_name st message).2
          = msgTag style executor_codename schema_name ++ message
        ∨ (StyleFunc.call style executor_codename schema_name st message).2
          = message)
    ∧ ((StyleFunc.call style executor_codename schema_name st message).2
          = msgTag style executor_codename schema_name ++ message
        ↔ st.last_message = none
          ∨ ∃ m, st.last_message = some m ∧ m.endsWith "\n" = true) := by
  rcases st with ⟨_ | m⟩
  · refine ⟨rfl, Or.inl rfl, ?_⟩
    exact ⟨fun _ => Or.inl rfl, fun _ => rfl⟩
  · by_cases hend : m.endsWith "\n"
    · refine ⟨by simp [StyleFunc.call, hend], ?_, ?_⟩
      · exact Or.inl (by simp [StyleFunc.call, hend])
      · constructor
        · intro _
          exact Or.inr ⟨m, rfl, hend⟩
        · intro _
          simp [StyleFunc.call, hend]
    · refine ⟨by simp [StyleFunc.call, hend], ?_, ?_⟩
      · exact Or.inr (by simp [StyleFunc.call, hend])
      · constructor
        · intro h
          rw [show (StyleFunc.call style executor_codename schema_name ⟨some m⟩ message).2
              = message from by simp [StyleFunc.call, hend]] at h
          exact absurd h (msgTag_append_ne style executor_codename schema_name message)
        · rintro (h | ⟨m', hm', he⟩)
          · exact Option.noConfusion h
          · injection hm' with hmm
            rw [hmm] at hend
            exact absurd he hend

/-- Claim C9: the stdout and stderr correlator states are two distinct
`StyleFunc` instances — `run_on_schema` attaches a fresh state with no
last message to each stream, and a write through one stream leaves the
other stream's wrapper (its last-message state and recorded output)
untouched. -/
theorem stream_correlators_independent (settings : Settings)
    (opOracle : String → Option String) (schema_name executor_codename : String)
    (command : CommandArg) (function_name : String) (args : Option (List String))
    (kwargs : Option Kwargs) (pass_schema_in_kwargs fork_db : Bool)
    (style : String → String) (cmd : CommandInstance) (message : String) :
    ((run_on_schema settings opOracle schema_name executor_codename command
        function_name args kwargs pass_schema_in_kwargs fork_db).commandUsed.stdout.style_func
      = ⟨none⟩
    ∧ (run_on_schema settings opOracle schema_name executor_codename command
        function_name args kwargs pass_schema_in_kwargs fork_db).commandUsed.stderr.style_func
      = ⟨none⟩)
    ∧ ((writeStdout style executor_codename schema_name cmd message).stderr = cmd.stderr
    ∧ (writeStderr style executor_codename schema_name cmd message).stdout = cmd.stdout) := by
  refine ⟨?_, rfl, rfl⟩
  unfold run_on_schema
  rcases resolveSchema settings schema_name with e | s
  · exact ⟨rfl, rfl⟩
  · rcases opOracle schema_name with _ | msg
    · exact ⟨rfl, rfl⟩
    · exact ⟨rfl, rfl⟩


/-- Claim C5: with `fork_db` (parallel mode) the task closes all
inherited connections before resolving its tenant, and on success
commits and closes the connection right after the invocation, before
returning; without `fork_db` (sequential mode) no connection event
occurs at all. -/
theorem fork_db_connection_discipline (settings : Settings)
    (opOracle : String → Option String) (schema_name executor_codename : String)
    (command : CommandArg) (function_name : String) (args : Option (List String))
    (kwargs : Option Kwargs) (pass_schema_in_kwargs : Bool) :
    ((run_on_schema settings opOracle schema_name executor_codename command
        function_name args kwargs pass_schema_in_kwargs true).events.take 2
      = [Event.closeAll, Event.resolveEv schema_name])
    ∧ (∀ r, (run_on_schema settings opOracle schema_name executor_codename command
          function_name args kwargs pass_schema_in_kwargs true).result = .ok r →
        ∃ schema inv, Event.isInvoke inv = true
          ∧ (run_on_schema settings opOracle schema_name executor_codename command
              function_name args kwargs pass_schema_in_kwargs true).events
            = [Event.closeAll, Event.resolveEv schema_name, Event.activateEv schema,
               inv, Event.commit, Event.closeConn])
    ∧ (Event.closeAll ∉ (run_on_schema settings opOracle schema_name executor_codename
          command function_name args kwargs pass_schema_in_kwargs false).events
      ∧ Event.commit ∉ (run_on_schema settings opOracle schema_name executor_codename
          command function_name args kwargs pass_schema_in_kwargs false).events
      ∧ Event.closeConn ∉ (run_on_schema settings opOracle schema_name executor_codename
          command function_name args kwargs pass_schema_in_kwargs false).events) := by
  unfold run_on_schema
  rcases resolveSchema settings schema_name with e | s
  · refine ⟨rfl, ?_, ?_⟩
    · intro r hr
      exact Except.noConfusion hr
    · simp
  · rcases hop : opOracle schema_name with _ | msg
    · refine ⟨rfl, ?_, ?_, ?_, ?_⟩
      · intro r _
        exact ⟨s, invokeShape function_name (args.getD [])
          (if pass_schema_in_kwargs
            then dictSet (dictRemove (dictRemove (kwargs.getD []) "stdout") "stderr")
              "schema_name" (PyValue.str schema_name)
            else dictRemove (dictRemove (kwargs.getD []) "stdout") "stderr"),
          invokeShape_isInvoke _ _ _, rfl⟩
      · intro hmem
        simp at hmem
        exact invokeShape_ne_closeAll _ _ _ hmem.symm
      · intro hmem
        simp at hmem
        exact invokeShape_ne_commit _ _ _ hmem.symm
      · intro hmem
        simp at hmem
        exact invokeShape_ne_closeConn _ _ _ hmem.symm
    · refine ⟨rfl, ?_, ?_, ?_, ?_⟩
      · intro r hr
        exact Except.noConfusion hr
      · intro hmem
        simp at hmem
        exact invokeShape_ne_closeAll _ _ _ hmem.symm
      · intro hmem
        simp at hmem
        exact invokeShape_ne_commit _ _ _ hmem.symm
      · intro hmem
        simp at hmem
        exact invokeShape_ne_closeConn _ _ _ hmem.symm

/-- Witness for C5: one concrete parallel-mode task whose full trace is
close-all, resolve, activate, invoke, commit, close-connection. -/
theorem fork_db_connection_discipline_witness :
    ∃ schema inv, Event.isInvoke inv = true
      ∧ (run_on_schema ⟨[("t1", ⟨["d1.com"]⟩)], none, none⟩ (fun _ => none) "t1"
          "parallel" (.cls ⟨1, 2⟩) "handle" none none false true).events
        = [Event.closeAll, Event.resolveEv "t1", Event.activateEv schema,
           inv, Event.commit, Event.closeConn] :=
  (fork_db_connection_discipline ⟨[("t1", ⟨["d1.com"]⟩)], none, none⟩ (fun _ => none)
    "t1" "parallel" (.cls ⟨1, 2⟩) "handle" none none false).2.1 "t1" rfl

/-- Claim C6: the parallel executor forwards `type(command)`, and the
worker instantiates the command afresh — two caller instances of the
same class produce identical worker runs whatever state the caller set
on them, and the worker's command carries no caller-bound attributes;
only the declared arguments cross the boundary. -/
theorem parallel_fresh_command (i1 i2 : CommandInstance) (h : i1.cls = i2.cls)
    (settings : Settings) (opOracle : String → Option String)
    (schema_name executor_codename function_name : String)
    (args : Option (List String)) (kwargs : Option Kwargs)
    (pass_schema_in_kwargs : Bool) :
    pyTypeOf (.inst i1) = .cls i1.cls
    ∧ run_on_schema settings opOracle schema_name executor_codename
        (pyTypeOf (.inst i1)) function_name args kwargs pass_schema_in_kwargs true
      = run_on_schema settings opOracle schema_name executor_codename
        (pyTypeOf (.inst i2)) function_name args kwargs pass_schema_in_kwargs true
    ∧ (run_on_schema settings opOracle schema_name executor_codename
        (pyTypeOf (.inst i1)) function_name args kwargs
        pass_schema_in_kwargs true).commandUsed.custom = [] := by
  refine ⟨rfl, ?_, ?_⟩
  · show run_on_schema settings opOracle schema_name executor_codename
        (.cls i1.cls) function_name args kwargs pass_schema_in_kwargs true
      = run_on_schema settings opOracle schema_name executor_codename
        (.cls i2.cls) function_name args kwargs pass_schema_in_kwargs true
    rw [h]
  · show (run_on_schema settings opOracle schema_name executor_codename
        (.cls i1.cls) function_name args kwargs
        pass_schema_in_kwargs true).commandUsed.custom = []
    unfold run_on_schema
    rcases resolveSchema settings schema_name with e | s
    · rfl
    · rcases opOracle schema_name with _ | msg <;> rfl

/-- Witness for C6: a caller instance with a custom stream and a
pre-bound attribute, against a pristine instance of the same class —
the parallel-worker runs coincide. -/
theorem parallel_fresh_command_witness :
    run_on_schema ⟨[("t1", ⟨[]⟩)], none, none⟩ (fun _ => none) "t1" "parallel"
        (pyTypeOf (.inst ⟨⟨1, 2⟩, wrapStream 9, wrapStream 9, [("pre", .str "bound")]⟩))
        "handle" none none false true
      = run_on_schema ⟨[("t1", ⟨[]⟩)], none, none⟩ (fun _ => none) "t1" "parallel"
        (pyTypeOf (.inst (instantiate ⟨1, 2⟩))) "handle" none none false true :=
  (parallel_fresh_command ⟨⟨1, 2⟩, wrapStream 9, wrapStream 9, [("pre", .str "bound")]⟩
    (instantiate ⟨1, 2⟩) rfl ⟨[("t1", ⟨[]⟩)], none, none⟩ (fun _ => none) "t1" "parallel"
    "handle" none none false).2.1

theorem sequentialGo_ok (settings : Settings) (opOracle : String → Option String)
    (function_name : String) (args : Option (List String)) (pass : Bool) :
    ∀ (xs : List String), (∀ x ∈ xs, taskResult settings opOracle x = .ok x) →
    ∀ (kw : Option Kwargs) (cmd : CommandArg) (acc : List String),
      (sequentialGo settings opOracle function_name args pass xs kw cmd acc).executed
        = acc.reverse ++ xs
      ∧ (sequentialGo settings opOracle function_name args pass xs kw cmd acc).raised
        = none := by
  intro xs
  induction xs with
  | nil =>
      intro _ kw cmd acc
      refine ⟨?_, rfl⟩
      show acc.reverse = acc.reverse ++ []
      simp
  | cons x xs ih =>
      intro hok kw cmd acc
      have hx : taskResult settings opOracle x = .ok x := hok x (by simp)
      have hxs : ∀ y ∈ xs, taskResult settings opOracle y = .ok y :=
        fun y hy => hok y (by simp [hy])
      have hres := run_result_eq_taskResult settings opOracle x "sequential" cmd
        function_name args kw pass false
      rw [hx] at hres
      simp only [sequentialGo, hres]
      have hrec := ih hxs
        (run_on_schema settings opOracle x "sequential" cmd function_name args kw
          pass false).kwargsFinal
        (run_on_schema settings opOracle x "sequential" cmd function_name args kw
          pass false).commandAfter
        (x :: acc)
      refine ⟨?_, hrec.2⟩
      rw [hrec.1]
      simp

theorem sequentialGo_fail (settings : Settings) (opOracle : String → Option String)
    (function_name : String) (args : Option (List String)) (pass : Bool)
    (b : String) (ys : List String) (e : ExecError)
    (hb : taskResult settings opOracle b = .error e) :
    ∀ (xs : List String), (∀ x ∈ xs, taskResult settings opOracle x = .ok x) →
    ∀ (kw : Option Kwargs) (cmd : CommandArg) (acc : List String),
      (sequentialGo settings opOracle function_name args pass (xs ++ b :: ys)
          kw cmd acc).executed
        = acc.reverse ++ xs ++ [b]
      ∧ (sequentialGo settings opOracle function_name args pass (xs ++ b :: ys)
          kw cmd acc).raised
        = some e := by
  intro xs
  induction xs with
  | nil =>
      intro _ kw cmd acc
      have hres := run_result_eq_taskResult settings opOracle b "sequential" cmd
        function_name args kw pass false
      rw [hb] at hres
      simp only [List.nil_append, sequentialGo, hres]
      exact ⟨by simp, by trivial⟩
  | cons x xs ih =>
      intro hok kw cmd acc
      have hx : taskResult settings opOracle x = .ok x := hok x (by simp)
      have hxs : ∀ y ∈ xs, taskResult settings opOracle y = .ok y :=
        fun y hy => hok y (by simp [hy])
      have hres := run_result_eq_taskResult settings opOracle x "sequential" cmd
        function_name args kw pass false
      rw [hx] at hres
      simp only [List.cons_append, sequentialGo, hres]
      have hrec := ih hxs
        (run_on_schema settings opOracle x "sequential" cmd function_name args kw
          pass false).kwargsFinal
        (run_on_schema settings opOracle x "sequential" cmd function_name args kw
          pass false).commandAfter
        (x :: acc)
      simp only [List.append_eq]
      refine ⟨?_, hrec.2⟩
      rw [hrec.1]
      simp

/-- Claim C4: in sequential mode the tasks run one at a time in input
order — when every identifier before `b` succeeds and `b`'s task fails,
exactly the identifiers up to and including `b` were started, the
identifiers after `b` are never attempted, and the failure propagates
to the caller as the run's result. -/
theorem sequential_order_fail_fast (settings : Settings)
    (opOracle : String → Option String) (command : CommandArg)
    (function_name : String) (args : Option (List String)) (kwargs : Option Kwargs)
    (pass_schema_in_kwargs : Bool) (xs : List String) (b : String)
    (ys : List String) (e : ExecError)
    (hxs : ∀ x ∈ xs, taskResult settings opOracle x = .ok x)
    (hb : taskResult settings opOracle b = .error e) :
    (sequential settings opOracle (xs ++ b :: ys) command function_name args kwargs
        pass_schema_in_kwargs).executed = xs ++ [b]
    ∧ (sequential settings opOracle (xs ++ b :: ys) command function_name args kwargs
        pass_schema_in_kwargs).result = .error e := by
  have h := sequentialGo_fail settings opOracle function_name args
    pass_schema_in_kwargs b ys e hb xs hxs kwargs command []
  constructor
  · unfold sequential
    dsimp only
    rw [h.1]
    simp
  · unfold sequential
    dsimp only
    rw [h.2]

/-- Witness for C4: tenants "a", "b", "c" with the operation failing on
"b": only "a" and "b" start, and the run fails with "b"'s error. -/
theorem sequential_order_fail_fast_witness :
    (sequential ⟨[("a", ⟨[]⟩), ("b", ⟨[]⟩), ("c", ⟨[]⟩)], none, none⟩
        (fun s => if s = "b" then some "boom" else none) ["a", "b", "c"]
        (.cls ⟨1, 2⟩) "handle" none none false).executed = ["a", "b"]
    ∧ (sequential ⟨[("a", ⟨[]⟩), ("b", ⟨[]⟩), ("c", ⟨[]⟩)], none, none⟩
        (fun s => if s = "b" then some "boom" else none) ["a", "b", "c"]
        (.cls ⟨1, 2⟩) "handle" none none false).result
      = .error (.operationFailure "boom") :=
  sequential_order_fail_fast ⟨[("a", ⟨[]⟩), ("b", ⟨[]⟩), ("c", ⟨[]⟩)], none, none⟩
    (fun s => if s = "b" then some "boom" else none) (.cls ⟨1, 2⟩) "handle" none none
    false ["a"] "b" ["c"]
    (.operationFailure "boom")
    (by intro x hx; fin_cases hx; rfl)
    rfl

/-- Claim C10: when every per-tenant task succeeds, both executors
return the identifiers in input order — `sequential` starts them all in
order and returns the input sequence itself, and `parallel` returns the
per-task completion tokens collected at the input positions, for every
completion schedule the pool may exhibit. -/
theorem success_results_input_order (settings : Settings)
    (opOracle : String → Option String) (schemas : List String)
    (command : CommandArg) (function_name : String) (args : Option (List String))
    (kwargs : Option Kwargs) (pass_schema_in_kwargs : Bool) (sched : List Nat)
    (hok : ∀ s ∈ schemas, taskResult settings opOracle s = .ok s)
    (hsched : sched.Perm (List.range schemas.length)) :
    (sequential settings opOracle schemas command function_name args kwargs
        pass_schema_in_kwargs).executed = schemas
    ∧ (sequential settings opOracle schemas command function_name args kwargs
        pass_schema_in_kwargs).result = .ok schemas
    ∧ parallel settings opOracle schemas command function_name args kwargs
        pass_schema_in_kwargs sched = some (.ok schemas) := by
  have hgo := sequentialGo_ok settings opOracle function_name args
    pass_schema_in_kwargs schemas hok kwargs command []
  refine ⟨?_, ?_, ?_⟩
  · unfold sequential
    dsimp only
    rw [hgo.1]
    simp
  · unfold sequential
    dsimp only
    rw [hgo.2]
  · unfold parallel
    dsimp only
    rw [poolMapSched_of_perm _ _ _ hsched]
    rw [Option.map_some']
    have hmap : schemas.map (fun s => (run_on_schema settings opOracle s "parallel"
          (pyTypeOf command) function_name args kwargs pass_schema_in_kwargs
          true).result)
        = schemas.map fun s => Except.ok s := by
      apply List.map_congr_left
      intro s hs
      rw [run_result_eq_taskResult]
      exact hok s hs
    rw [hmap, gatherResults_map_ok]

/-- Witness for C10: tenants "a" and "b", with the pool completing task
1 before task 0; both executors still return ["a", "b"]. -/
theorem success_results_input_order_witness :
    (sequential ⟨[("a", ⟨[]⟩), ("b", ⟨[]⟩)], none, none⟩ (fun _ => none) ["a", "b"]
        (.cls ⟨1, 2⟩) "handle" none none false).executed = ["a", "b"]
    ∧ (sequential ⟨[("a", ⟨[]⟩), ("b", ⟨[]⟩)], none, none⟩ (fun _ => none) ["a", "b"]
        (.cls ⟨1, 2⟩) "handle" none none false).result = .ok ["a", "b"]
    ∧ parallel ⟨[("a", ⟨[]⟩), ("b", ⟨[]⟩)], none, none⟩ (fun _ => none) ["a", "b"]
        (.cls ⟨1, 2⟩) "handle" none none false [1, 0] = some (.ok ["a", "b"]) :=
  success_results_input_order ⟨[("a", ⟨[]⟩), ("b", ⟨[]⟩)], none, none⟩ (fun _ => none)
    ["a", "b"] (.cls ⟨1, 2⟩) "handle" none none false [1, 0]
    (by intro x hx; fin_cases hx <;> rfl)
    (by decide)

theorem isInvoke_closeAll : Event.isInvoke Event.closeAll = false := rfl

theorem isInvoke_resolveEv (n : String) :
    Event.isInvoke (Event.resolveEv n) = false := rfl

theorem isInvoke_activateEv (s : ResolvedSchema) :
    Event.isInvoke (Event.activateEv s) = false := rfl

theorem isInvoke_commit : Event.isInvoke Event.commit = false := rfl

theorem isInvoke_closeConn : Event.isInvoke Event.closeConn = false := rfl

/-- Claim C7 counterexample: with the pass-tenant flag set and the
argv-token invocation shape, `run_on_schema` injects "schema_name" into
the keyword dictionary, but the dispatched call forwards only the token
list — the invoke event carries no named arguments at all, so the
operation does not receive the tenant identifier as a named argument
under that shape. -/
theorem pass_schema_argv_counterexample :
    (run_on_schema ⟨[("t1", ⟨[]⟩)], none, none⟩ (fun _ => none) "t1" "sequential"
        (.inst (instantiate ⟨1, 2⟩)) "special:run_from_argv" (some ["migrate"])
        (some []) true false).events
      = [Event.resolveEv "t1", Event.activateEv (.static "t1" ⟨none⟩),
         Event.runFromArgvInvoke ["migrate"]]
    ∧ Event.namedArgs (Event.runFromArgvInvoke ["migrate"]) = none := by
  exact ⟨by decide, rfl⟩

/-- Claim C7 amended: when the pass-tenant flag is set, "schema_name" is
injected into the keyword arguments before dispatch, and exactly one of
the three invocation shapes executes; the dispatch-by-name shape and the
direct-method shape forward the keyword arguments carrying the injected
identifier, while the argv-token shape forwards only the token list and
receives no named arguments. -/
theorem pass_schema_dispatch_amended (settings : Settings)
    (opOracle : String → Option String) (schema_name executor_codename : String)
    (command : CommandArg) (function_name : String) (args : Option (List String))
    (kwargs : Option Kwargs) (fork_db : Bool) (schema : ResolvedSchema)
    (hres : resolveSchema settings schema_name = .ok schema) :
    ∃ kw, dictGet kw "schema_name" = some (.str schema_name)
      ∧ ((run_on_schema settings opOracle schema_name executor_codename command
            function_name args kwargs true fork_db).events.filter Event.isInvoke)
        = [invokeShape function_name (args.getD []) kw]
      ∧ (function_name = "special:call_command" →
          invokeShape function_name (args.getD []) kw
            = .callCommandInvoke (args.getD []) kw)
      ∧ (function_name = "special:run_from_argv" →
          invokeShape function_name (args.getD []) kw
            = .runFromArgvInvoke (args.getD [])
          ∧ Event.namedArgs (.runFromArgvInvoke (args.getD [])) = none)
      ∧ (function_name ≠ "special:call_command" →
          function_name ≠ "special:run_from_argv" →
          invokeShape function_name (args.getD []) kw
            = .methodInvoke function_name (args.getD []) kw) := by
  refine ⟨dictSet (dictRemove (dictRemove (kwargs.getD []) "stdout") "stderr")
    "schema_name" (PyValue.str schema_name), dictGet_set_self _ _ _, ?_, ?_, ?_, ?_⟩
  · unfold run_on_schema
    rcases hR : resolveSchema settings schema_name with e | s
    · rw [hR] at hres
      exact Except.noConfusion hres
    · rcases opOracle schema_name with _ | msg
      · rcases fork_db <;>
          simp [List.filter_append, List.filter_cons, invokeShape_isInvoke,
            isInvoke_closeAll, isInvoke_resolveEv, isInvoke_activateEv,
            isInvoke_commit, isInvoke_closeConn]
      · rcases fork_db <;>
          simp [List.filter_append, List.filter_cons, invokeShape_isInvoke,
            isInvoke_closeAll, isInvoke_resolveEv, isInvoke_activateEv,
            isInvoke_commit, isInvoke_closeConn]
  · intro h
    rw [h]
    unfold invokeShape
    rw [if_pos rfl]
  · intro h
    rw [h]
    unfold invokeShape
    rw [if_neg (by decide), if_pos rfl]
    exact ⟨rfl, rfl⟩
  · intro h1 h2
    unfold invokeShape
    rw [if_neg h1, if_neg h2]

/-- Witness for the amended C7: a concrete tenant and a direct-method
dispatch, with the injected identifier visible in the forwarded keyword
arguments. -/
theorem pass_schema_dispatch_amended_witness :
    ∃ kw, dictGet kw "schema_name" = some (.str "t1")
      ∧ ((run_on_schema ⟨[("t1", ⟨[]⟩)], none, none⟩ (fun _ => none) "t1" "sequential"
            (.inst (instantiate ⟨1, 2⟩)) "handle" none (some []) true
            false).events.filter Event.isInvoke)
        = [invokeShape "handle" ((none : Option (List String)).getD []) kw]
      ∧ ("handle" = "special:call_command" →
          invokeShape "handle" ((none : Option (List String)).getD []) kw
            = .callCommandInvoke ((none : Option (List String)).getD []) kw)
      ∧ ("handle" = "special:run_from_argv" →
          invokeShape "handle" ((none : Option (List String)).getD []) kw
            = .runFromArgvInvoke ((none : Option (List String)).getD [])
          ∧ Event.namedArgs (.runFromArgvInvoke ((none : Option (List String)).getD []))
            = none)
      ∧ ("handle" ≠ "special:call_command" → "handle" ≠ "special:run_from_argv" →
          invokeShape "handle" ((none : Option (List String)).getD []) kw
            = .methodInvoke "handle" ((none : Option (List String)).getD []) kw) :=
  pass_schema_dispatch_amended ⟨[("t1", ⟨[]⟩)], none, none⟩ (fun _ => none) "t1"
    "sequential" (.inst (instantiate ⟨1, 2⟩)) "handle" none (some []) false
    (.static "t1" ⟨none⟩) rfl

theorem run_kwargs_frame (settings : Settings) (opOracle : String → Option String)
    (schema_name executor_codename : String) (command : CommandArg)
    (function_name : String) (args : Option (List String)) (kw : Kwargs)
    (pass_schema_in_kwargs fork_db : Bool) (k : String)
    (h1 : k ≠ "stdout") (h2 : k ≠ "stderr") (h3 : k ≠ "schema_name") :
    ∃ kw', (run_on_schema settings opOracle schema_name executor_codename command
        function_name args (some kw) pass_schema_in_kwargs fork_db).kwargsFinal
      = some kw' ∧ dictGet kw' k = dictGet kw k := by
  have hrem : dictGet (dictRemove (dictRemove kw "stdout") "stderr") k
      = dictGet kw k := by
    rw [dictGet_remove_ne _ _ _ h2, dictGet_remove_ne _ _ _ h1]
  have hset : ∀ v, dictGet (dictSet (dictRemove (dictRemove kw "stdout") "stderr")
      "schema_name" v) k = dictGet kw k := by
    intro v
    rw [dictGet_set_ne _ _ _ _ h3, hrem]
  unfold run_on_schema
  rcases resolveSchema settings schema_name with e | s
  · exact ⟨_, rfl, by simpa using hrem⟩
  · rcases opOracle schema_name with _ | msg
    · rcases pass_schema_in_kwargs
      · exact ⟨_, rfl, by simpa using hrem⟩
      · exact ⟨_, rfl, by simpa using hset _⟩
    · rcases pass_schema_in_kwargs
      · exact ⟨_, rfl, by simpa using hrem⟩
      · exact ⟨_, rfl, by simpa using hset _⟩

theorem sequentialGo_kwargs_frame (settings : Settings)
    (opOracle : String → Option String) (function_name : String)
    (args : Option (List String)) (pass : Bool) (k : String)
    (h1 : k ≠ "stdout") (h2 : k ≠ "stderr") (h3 : k ≠ "schema_name") :
    ∀ (xs : List String) (kw : Kwargs) (cmd : CommandArg) (acc : List String),
      ∃ kw2, (sequentialGo settings opOracle function_name args pass xs
          (some kw) cmd acc).kwargsFinal = some kw2
        ∧ dictGet kw2 k = dictGet kw k := by
  intro xs
  induction xs with
  | nil =>
      intro kw cmd acc
      exact ⟨kw, rfl, rfl⟩
  | cons x xs ih =>
      intro kw cmd acc
      obtain ⟨kw', hkf, hkp⟩ := run_kwargs_frame settings opOracle x "sequential" cmd
        function_name args kw pass false k h1 h2 h3
      rcases hres : (run_on_schema settings opOracle x "sequential" cmd function_name
          args (some kw) pass false).result with e | r
      · refine ⟨kw', ?_, hkp⟩
        simp only [sequentialGo, hres]
        exact hkf
      · obtain ⟨kw2, hkf2, hkp2⟩ := ih kw'
          (run_on_schema settings opOracle x "sequential" cmd function_name args
            (some kw) pass false).commandAfter (x :: acc)
        refine ⟨kw2, ?_, by rw [hkp2, hkp]⟩
        simp only [sequentialGo, hres]
        rw [hkf]
        exact hkf2

/-- Claim C8 counterexample: a sequential run over one statically
configured tenant with the pass-tenant flag set, given a keyword
dictionary holding a caller stream under "stdout": after the run the
caller's dictionary has lost its "stdout" entry and gained a
"schema_name" entry, so the mapping is not unchanged. -/
theorem kwargs_mutation_counterexample :
    (sequential ⟨[("t1", ⟨[]⟩)], none, none⟩ (fun _ => none) ["t1"]
        (.inst (instantiate ⟨1, 2⟩)) "handle" none
        (some [("stdout", .stream 7), ("extra", .str "v")]) true).kwargsFinal
      = some [("extra", .str "v"), ("schema_name", .str "t1")]
    ∧ dictGet [("stdout", .stream 7), ("extra", .str "v")] "stdout"
      = some (.stream 7)
    ∧ dictGet [("extra", .str "v"), ("schema_name", .str "t1")] "stdout" = none
    ∧ dictGet [("stdout", .stream 7), ("extra", .str "v")] "schema_name" = none
    ∧ dictGet [("extra", .str "v"), ("schema_name", .str "t1")] "schema_name"
      = some (.str "t1") := by
  refine ⟨by decide, by decide, by decide, by decide, by decide⟩

/-- Claim C8 amended: the identifier sequence is not mutated — a
successful sequential run returns exactly the input list — but the
caller's keyword dictionary is mutated: its "stdout" and "stderr"
entries are popped and, when the pass-tenant flag is set, a
"schema_name" entry is written; every other key keeps its original
value through the whole run. -/
theorem kwargs_frame_amended (settings : Settings)
    (opOracle : String → Option String) (schemas : List String)
    (command : CommandArg) (function_name : String) (args : Option (List String))
    (kw : Kwargs) (pass_schema_in_kwargs : Bool) (k : String)
    (h1 : k ≠ "stdout") (h2 : k ≠ "stderr") (h3 : k ≠ "schema_name") :
    (∃ kw2, (sequential settings opOracle schemas command function_name args
        (some kw) pass_schema_in_kwargs).kwargsFinal = some kw2
      ∧ dictGet kw2 k = dictGet kw k)
    ∧ (∀ out, (sequential settings opOracle schemas command function_name args
        (some kw) pass_schema_in_kwargs).result = .ok out → out = schemas) := by
  constructor
  · obtain ⟨kw2, hkf, hkp⟩ := sequentialGo_kwargs_frame settings opOracle
      function_name args pass_schema_in_kwargs k h1 h2 h3 schemas kw command []
    refine ⟨kw2, ?_, hkp⟩
    unfold sequential
    dsimp only
    exact hkf
  · intro out hout
    unfold sequential at hout
    dsimp only at hout
    rcases hr : (sequentialGo settings opOracle function_name args
        pass_schema_in_kwargs schemas (some kw) command []).raised with _ | e
    · rw [hr] at hout
      injection hout with h
      exact h.symm
    · rw [hr] at hout
      exact Except.noConfusion hout

/-- Witness for the amended C8: one statically configured tenant, the
pass-tenant flag set, a dictionary with a "stdout" stream and an
"extra" entry — "extra" keeps its value and the returned sequence is
the input list. -/
theorem kwargs_frame_amended_witness :
    (∃ kw2, (sequential ⟨[("t1", ⟨[]⟩)], none, none⟩ (fun _ => none) ["t1"]
        (.inst (instantiate ⟨1, 2⟩)) "handle" none
        (some [("stdout", .stream 7), ("extra", .str "v")]) true).kwargsFinal
      = some kw2
      ∧ dictGet kw2 "extra"
        = dictGet [("stdout", .stream 7), ("extra", .str "v")] "extra")
    ∧ (∀ out, (sequential ⟨[("t1", ⟨[]⟩)], none, none⟩ (fun _ => none) ["t1"]
        (.inst (instantiate ⟨1, 2⟩)) "handle" none
        (some [("stdout", .stream 7), ("extra", .str "v")]) true).result = .ok out →
        out = ["t1"]) :=
  kwargs_frame_amended ⟨[("t1", ⟨[]⟩)], none, none⟩ (fun _ => none) ["t1"]
    (.inst (instantiate ⟨1, 2⟩)) "handle" none
    [("stdout", .stream 7), ("extra", .str "v")] true "extra"
    (by decide) (by decide) (by decide)
